import Mathlib

/-!
Shallow embedding of `src/PostCommentForm.tsx`: a single React component with
three text fields (`postTitle`, `postContent`, `comment`), a per-field error
mapping, a shared `isSubmitting` flag, two submit handlers that validate and
then schedule a 500 ms delayed completion (`setTimeout`), and a change handler
that overwrites a field and optimistically clears its error.

State updates in the source are `setState` calls on a single-threaded React
component; we model the component state as an explicit record and each handler
as a pure state transformer.  The `setTimeout` callbacks are modelled by a
`pending` queue of captured completions (the callback closes over the form
values present when the handler ran), and the `console.log` side effects of
the completions are modelled as an `emitted` event trace.  Timestamps
(`new Date().toISOString()`) are modelled as an arbitrary `Nat` supplied when
the completion fires.  The presentation layer disables all inputs and both
submit buttons while `isSubmitting` is true; the system-level semantics
(`applyAction`/`run`) therefore turns a submit click into a no-op while the
flag is set, exactly as the disabled button swallows the click.
-/

namespace PostCommentForm

/-- The three text fields of the form (keys of `FormData`). -/
inductive Field : Type
  | postTitle
  | postContent
  | comment
deriving DecidableEq, Repr

/-- `interface FormData`: the three controlled text values. -/
structure FormData where
  postTitle : String
  postContent : String
  comment : String
deriving DecidableEq, Repr

/-- `interface FormErrors`: optional message per field (`undefined` = `none`). -/
structure FormErrors where
  postTitle : Option String
  postContent : Option String
  comment : Option String
deriving DecidableEq, Repr

/-- Read a field of `FormData` by key (`formData[field]`). -/
def FormData.get (fd : FormData) : Field → String
  | Field.postTitle => fd.postTitle
  | Field.postContent => fd.postContent
  | Field.comment => fd.comment

/-- Overwrite one field of `FormData` (`{ ...prev, [field]: value }`). -/
def FormData.set (fd : FormData) : Field → String → FormData
  | Field.postTitle, v => { fd with postTitle := v }
  | Field.postContent, v => { fd with postContent := v }
  | Field.comment, v => { fd with comment := v }

/-- Read one entry of the error mapping (`errors[field]`). -/
def FormErrors.get (e : FormErrors) : Field → Option String
  | Field.postTitle => e.postTitle
  | Field.postContent => e.postContent
  | Field.comment => e.comment

/-- Overwrite one entry of the error mapping (`{ ...prev, [field]: m }`). -/
def FormErrors.set (e : FormErrors) : Field → Option String → FormErrors
  | Field.postTitle, m => { e with postTitle := m }
  | Field.postContent, m => { e with postContent := m }
  | Field.comment, m => { e with comment := m }

/-- The empty error mapping `{}`. -/
def emptyErrors : FormErrors := ⟨none, none, none⟩

/-- JS `String.prototype.trim()`: strip leading and trailing whitespace,
modelled directly on the character list. -/
def trimString (s : String) : String :=
  ⟨(((s.data.dropWhile Char.isWhitespace).reverse.dropWhile
      Char.isWhitespace).reverse)⟩

/-- The fixed required-message for each field (the `switch` in `validateForm`). -/
def requiredMessage : Field → String
  | Field.postTitle => "Post title is required"
  | Field.postContent => "Post content is required"
  | Field.comment => "Comment is required"

/-- The `newErrors` object built by `validateForm`'s `fields.forEach` loop:
for each targeted field whose trimmed value is empty, the fixed message. -/
def computeNewErrors (fd : FormData) (fields : List Field) : FormErrors :=
  fields.foldl
    (fun acc f =>
      if trimString (fd.get f) = "" then acc.set f (some (requiredMessage f)) else acc)
    emptyErrors

/-- One slot of the JS object spread `{ ...prev, ...newErrors }`: a key present
in `newErrors` overrides, an absent key keeps the previous entry. -/
def mergeOpt : Option String → Option String → Option String
  | p, none => p
  | _, some m => some m

/-- `setErrors(prev => ({ ...prev, ...newErrors }))`. -/
def mergeErrors (prev new : FormErrors) : FormErrors :=
  ⟨mergeOpt prev.postTitle new.postTitle,
   mergeOpt prev.postContent new.postContent,
   mergeOpt prev.comment new.comment⟩

/-- `validateForm(fieldsToValidate)`: returns the updated error mapping
(the source updates it through `setErrors`) together with the boolean result
`Object.keys(newErrors).length === 0`. -/
def validateForm (fd : FormData) (prev : FormErrors) (fields : List Field) :
    FormErrors × Bool :=
  let newErrors := computeNewErrors fd fields
  (mergeErrors prev newErrors, decide (newErrors = emptyErrors))

/-- JS truthiness of `errors[field]`: `undefined` and `""` are falsy,
every other string is truthy. -/
def truthy : Option String → Bool
  | none => false
  | some m => !(m == "")

/-- A scheduled `setTimeout` completion, with the form values the callback
closed over at scheduling time. -/
inductive Pending : Type
  | createPost (title content : String)
  | addComment (text : String)
deriving DecidableEq, Repr

/-- An emitted structured event (the `console.log` payloads), with the
timestamp taken when the completion fires. -/
inductive Event : Type
  | createPost (title content : String) (timestamp : Nat)
  | addComment (text : String) (timestamp : Nat)
deriving DecidableEq, Repr

/-- The full component state: `formData`, `errors`, `isSubmitting`, plus the
queue of scheduled completions and the trace of emitted events. -/
structure ComponentState where
  formData : FormData
  errors : FormErrors
  isSubmitting : Bool
  pending : List Pending
  emitted : List Event
deriving DecidableEq, Repr

/-- The `useState` initial values: all fields empty, no errors, not
submitting, nothing scheduled, nothing emitted. -/
def initialState : ComponentState :=
  ⟨⟨"", "", ""⟩, emptyErrors, false, [], []⟩

/-- `handleInputChange(field, value)`: overwrite the field's value; if the
field currently has a truthy error, clear exactly that entry. -/
def handleInputChange (f : Field) (v : String) (s : ComponentState) :
    ComponentState :=
  if truthy (s.errors.get f) then
    { s with formData := s.formData.set f v, errors := s.errors.set f none }
  else
    { s with formData := s.formData.set f v }

/-- `handleCreatePost`: validate `{postTitle, postContent}` (updating the
error mapping either way); on failure return; on success set
`isSubmitting = true` and schedule a completion capturing the current title
and content. -/
def handleCreatePost (s : ComponentState) : ComponentState :=
  let result := validateForm s.formData s.errors [Field.postTitle, Field.postContent]
  if result.2 then
    { s with errors := result.1, isSubmitting := true,
             pending := s.pending ++
               [Pending.createPost s.formData.postTitle s.formData.postContent] }
  else
    { s with errors := result.1 }

/-- `handleAddComment`: validate `{comment}`; on success set
`isSubmitting = true` and schedule a completion capturing the comment. -/
def handleAddComment (s : ComponentState) : ComponentState :=
  let result := validateForm s.formData s.errors [Field.comment]
  if result.2 then
    { s with errors := result.1, isSubmitting := true,
             pending := s.pending ++ [Pending.addComment s.formData.comment] }
  else
    { s with errors := result.1 }

/-- Fire the oldest scheduled `setTimeout` callback at timestamp `t`: emit the
event with the captured values, reset the sub-form's fields through the
functional `setFormData` update, and clear `isSubmitting`.  A no-op when
nothing is scheduled. -/
def runCompletion (s : ComponentState) (t : Nat) : ComponentState :=
  match s.pending with
  | [] => s
  | Pending.createPost title content :: rest =>
      { s with formData := { s.formData with postTitle := "", postContent := "" },
               isSubmitting := false, pending := rest,
               emitted := s.emitted ++ [Event.createPost title content t] }
  | Pending.addComment text :: rest =>
      { s with formData := { s.formData with comment := "" },
               isSubmitting := false, pending := rest,
               emitted := s.emitted ++ [Event.addComment text t] }

/-- A user/system event at the component's boundary. -/
inductive Action : Type
  | input (f : Field) (v : String)
  | submitPost
  | submitComment
  | complete (t : Nat)
deriving DecidableEq, Repr

/-- System-level semantics of one event.  A submit click while `isSubmitting`
is true is swallowed by the disabled button, hence a no-op; a `complete`
event fires the scheduled callback (no-op when none is scheduled). -/
def applyAction (s : ComponentState) : Action → ComponentState
  | Action.input f v => handleInputChange f v s
  | Action.submitPost => if s.isSubmitting then s else handleCreatePost s
  | Action.submitComment => if s.isSubmitting then s else handleAddComment s
  | Action.complete t => runCompletion s t

/-- Run a sequence of boundary events from the initial state. -/
def run (acts : List Action) : ComponentState :=
  acts.foldl applyAction initialState

/-- A component state that some sequence of boundary events produces. -/
def Reachable (s : ComponentState) : Prop :=
  ∃ acts : List Action, s = run acts

/-- The fields targeted by the validation pass an action triggers
(`['postTitle', 'postContent']` resp. `['comment']`). -/
def targetedFields : Action → List Field
  | Action.submitPost => [Field.postTitle, Field.postContent]
  | Action.submitComment => [Field.comment]
  | Action.input _ _ => []
  | Action.complete _ => []

/-- Action `a` edits field `f` (a keystroke on that control). -/
def editsField : Action → Field → Prop
  | Action.input g _, f => g = f
  | Action.submitPost, _ => False
  | Action.submitComment, _ => False
  | Action.complete _, _ => False

/-- In state `s`, action `a` runs a validation pass that targets `f` and
finds it empty after trimming (the submit click is not swallowed by a
disabled button, `f` is in the targeted subset, and its value trims to
empty). -/
def ValidatedEmptyAt (s : ComponentState) (a : Action) (f : Field) : Prop :=
  f ∈ targetedFields a ∧ s.isSubmitting = false ∧
    trimString (s.formData.get f) = ""

/-- After trace `acts`, field `f` was found empty by a validation pass
targeting it, and has not been edited since. -/
def ErrorJustified (acts : List Action) (f : Field) : Prop :=
  ∃ t1 a t2, acts = t1 ++ a :: t2 ∧ ValidatedEmptyAt (run t1) a f ∧
    ∀ b ∈ t2, ¬ editsField b f

/-! ### Basic lemmas about the record accessors -/

theorem errors_get_set_self (e : FormErrors) (f : Field) (v : Option String) :
    (e.set f v).get f = v := by
  cases f <;> rfl

theorem errors_get_set_ne (e : FormErrors) (f g : Field) (v : Option String)
    (h : f ≠ g) : (e.set f v).get g = e.get g := by
  cases f <;> cases g <;> first | rfl | exact absurd rfl h

theorem formData_get_set_self (fd : FormData) (f : Field) (v : String) :
    (fd.set f v).get f = v := by
  cases f <;> rfl

theorem formData_get_set_ne (fd : FormData) (f g : Field) (v : String)
    (h : f ≠ g) : (fd.set f v).get g = fd.get g := by
  cases f <;> cases g <;> first | rfl | exact absurd rfl h

theorem emptyErrors_get (f : Field) : emptyErrors.get f = none := by
  cases f <;> rfl

theorem FormErrors.ext_get (e e' : FormErrors)
    (h : ∀ f, e.get f = e'.get f) : e = e' := by
  cases e
  cases e'
  have h1 := h Field.postTitle
  have h2 := h Field.postContent
  have h3 := h Field.comment
  simp only [FormErrors.get] at h1 h2 h3
  simp [h1, h2, h3]

/-! ### `validateForm` -/

theorem computeNewErrors_foldl_get (fd : FormData) (fields : List Field)
    (f : Field) (acc : FormErrors) :
    (fields.foldl
      (fun acc f =>
        if trimString (fd.get f) = "" then acc.set f (some (requiredMessage f))
        else acc)
      acc).get f =
      if f ∈ fields ∧ trimString (fd.get f) = "" then some (requiredMessage f)
      else acc.get f := by
  induction fields generalizing acc with
  | nil => simp
  | cons a as ih =>
    rw [List.foldl_cons, ih]
    by_cases hmem : f ∈ as ∧ trimString (fd.get f) = ""
    · simp [hmem, List.mem_cons, hmem.1]
    · simp only [hmem, if_false]
      by_cases haf : a = f
      · subst haf
        by_cases hempty : trimString (fd.get a) = ""
        · simp [hempty, errors_get_set_self]
        · simp [hempty, List.mem_cons, hmem]
      · have hgf : (if trimString (fd.get a) = ""
            then acc.set a (some (requiredMessage a)) else acc).get f = acc.get f := by
          by_cases hempty : trimString (fd.get a) = ""
          · simp [hempty, errors_get_set_ne _ _ _ _ haf]
          · simp [hempty]
        rw [hgf]
        have : (f ∈ a :: as ∧ trimString (fd.get f) = "") ↔
            (f ∈ as ∧ trimString (fd.get f) = "") := by
          constructor
          · rintro ⟨hm, he⟩
            rcases List.mem_cons.mp hm with rfl | hm'
            · exact absurd rfl haf
            · exact ⟨hm', he⟩
          · rintro ⟨hm, he⟩
            exact ⟨List.mem_cons_of_mem _ hm, he⟩
        rw [if_neg (fun hc => hmem (this.mp hc))]

theorem computeNewErrors_get (fd : FormData) (fields : List Field) (f : Field) :
    (computeNewErrors fd fields).get f =
      if f ∈ fields ∧ trimString (fd.get f) = "" then some (requiredMessage f)
      else none := by
  rw [computeNewErrors, computeNewErrors_foldl_get, emptyErrors_get]

theorem mergeErrors_get (p n : FormErrors) (f : Field) :
    (mergeErrors p n).get f = mergeOpt (p.get f) (n.get f) := by
  cases f <;> rfl

theorem mergeErrors_empty (p : FormErrors) : mergeErrors p emptyErrors = p := by
  cases p
  rfl

theorem validateForm_fst_get (fd : FormData) (prev : FormErrors)
    (fields : List Field) (f : Field) :
    ((validateForm fd prev fields).1).get f =
      if f ∈ fields ∧ trimString (fd.get f) = "" then some (requiredMessage f)
      else prev.get f := by
  rw [validateForm]
  simp only [mergeErrors_get, computeNewErrors_get]
  by_cases h : f ∈ fields ∧ trimString (fd.get f) = "" <;> simp [h, mergeOpt]

theorem validateForm_snd (fd : FormData) (prev : FormErrors)
    (fields : List Field) :
    (validateForm fd prev fields).2 = true ↔
      ∀ f ∈ fields, trimString (fd.get f) ≠ "" := by
  rw [validateForm]
  simp only [decide_eq_true_eq]
  constructor
  · intro h f hf hempty
    have := computeNewErrors_get fd fields f
    rw [h, emptyErrors_get] at this
    simp [hf, hempty] at this
  · intro h
    refine FormErrors.ext_get _ _ fun f => ?_
    rw [computeNewErrors_get, emptyErrors_get]
    by_cases hf : f ∈ fields
    · simp [h f hf]
    · simp [hf]

/-! ### Handler lemmas -/

theorem handleInputChange_formData (f : Field) (v : String) (s : ComponentState) :
    (handleInputChange f v s).formData = s.formData.set f v := by
  rw [handleInputChange]
  by_cases h : truthy (s.errors.get f) = true <;> simp [h]

theorem handleInputChange_isSubmitting (f : Field) (v : String)
    (s : ComponentState) :
    (handleInputChange f v s).isSubmitting = s.isSubmitting := by
  rw [handleInputChange]
  by_cases h : truthy (s.errors.get f) = true <;> simp [h]

theorem handleInputChange_pending (f : Field) (v : String) (s : ComponentState) :
    (handleInputChange f v s).pending = s.pending := by
  rw [handleInputChange]
  by_cases h : truthy (s.errors.get f) = true <;> simp [h]

theorem handleInputChange_emitted (f : Field) (v : String) (s : ComponentState) :
    (handleInputChange f v s).emitted = s.emitted := by
  rw [handleInputChange]
  by_cases h : truthy (s.errors.get f) = true <;> simp [h]

theorem handleInputChange_errors_ne (f : Field) (v : String) (s : ComponentState)
    (g : Field) (h : g ≠ f) :
    (handleInputChange f v s).errors.get g = s.errors.get g := by
  rw [handleInputChange]
  by_cases ht : truthy (s.errors.get f) = true <;>
    simp [ht, errors_get_set_ne _ _ _ _ (Ne.symm h)]

theorem handleInputChange_errors_self (f : Field) (v : String)
    (s : ComponentState) :
    (handleInputChange f v s).errors.get f =
      if truthy (s.errors.get f) then none else s.errors.get f := by
  rw [handleInputChange]
  by_cases ht : truthy (s.errors.get f) = true <;>
    simp [ht, errors_get_set_self]

theorem handleCreatePost_errors (s : ComponentState) :
    (handleCreatePost s).errors =
      (validateForm s.formData s.errors [Field.postTitle, Field.postContent]).1 := by
  rw [handleCreatePost]
  by_cases h :
      (validateForm s.formData s.errors [Field.postTitle, Field.postContent]).2 =
        true <;>
    simp [h]

theorem handleAddComment_errors (s : ComponentState) :
    (handleAddComment s).errors =
      (validateForm s.formData s.errors [Field.comment]).1 := by
  rw [handleAddComment]
  by_cases h : (validateForm s.formData s.errors [Field.comment]).2 = true <;>
    simp [h]

theorem runCompletion_errors (s : ComponentState) (t : Nat) :
    (runCompletion s t).errors = s.errors := by
  rw [runCompletion]
  match s.pending with
  | [] => rfl
  | Pending.createPost title content :: rest => rfl
  | Pending.addComment text :: rest => rfl

/-! ### Invariants of reachable states -/

/-- The pending queue holds exactly one completion while `isSubmitting` is
true and is empty otherwise. -/
def flagInv (s : ComponentState) : Prop :=
  s.pending.length = (if s.isSubmitting then 1 else 0)

/-- Every recorded error is the fixed required-message of its field. -/
def errorsWF (s : ComponentState) : Prop :=
  ∀ f m, s.errors.get f = some m → m = requiredMessage f

theorem applyAction_flagInv (s : ComponentState) (a : Action)
    (h : flagInv s) : flagInv (applyAction s a) := by
  cases a with
  | input f v =>
    simp only [applyAction, flagInv, handleInputChange_pending,
      handleInputChange_isSubmitting]
    exact h
  | submitPost =>
    by_cases hs : s.isSubmitting = true
    · simp [applyAction, hs, h]
    · have hs' : s.isSubmitting = false := by
        cases hb : s.isSubmitting
        · rfl
        · exact absurd hb hs
      have hpend : s.pending = [] := by
        rw [flagInv, hs'] at h
        simpa using List.length_eq_zero.mp (by simpa using h)
      rw [applyAction, hs', handleCreatePost]
      by_cases hv :
          (validateForm s.formData s.errors
            [Field.postTitle, Field.postContent]).2 = true <;>
        simp [hv, flagInv, hpend, hs', h]
  | submitComment =>
    by_cases hs : s.isSubmitting = true
    · simp [applyAction, hs, h]
    · have hs' : s.isSubmitting = false := by
        cases hb : s.isSubmitting
        · rfl
        · exact absurd hb hs
      have hpend : s.pending = [] := by
        rw [flagInv, hs'] at h
        simpa using List.length_eq_zero.mp (by simpa using h)
      rw [applyAction, hs', handleAddComment]
      by_cases hv : (validateForm s.formData s.errors [Field.comment]).2 = true <;>
        simp [hv, flagInv, hpend, hs', h]
  | complete t =>
    rw [applyAction, runCompletion]
    match hp : s.pending with
    | [] => simpa [flagInv, hp] using h
    | Pending.createPost title content :: rest =>
      rw [flagInv, hp] at h
      rcases hb : s.isSubmitting with _ | _
      · rw [hb] at h; simp at h
      · rw [hb] at h
        simp only [List.length_cons, if_true] at h
        have : rest = [] := List.length_eq_zero.mp (by omega)
        simp [flagInv, this]
    | Pending.addComment text :: rest =>
      rw [flagInv, hp] at h
      rcases hb : s.isSubmitting with _ | _
      · rw [hb] at h; simp at h
      · rw [hb] at h
        simp only [List.length_cons, if_true] at h
        have : rest = [] := List.length_eq_zero.mp (by omega)
        simp [flagInv, this]

theorem run_flagInv (acts : List Action) : flagInv (run acts) := by
  have main : ∀ (l : List Action) (s : ComponentState), flagInv s →
      flagInv (l.foldl applyAction s) := by
    intro l
    induction l with
    | nil => intro s h; exact h
    | cons a as ih => intro s h; exact ih _ (applyAction_flagInv s a h)
  exact main acts initialState (by rw [flagInv]; rfl)

theorem applyAction_errorsWF (s : ComponentState) (a : Action)
    (h : errorsWF s) : errorsWF (applyAction s a) := by
  cases a with
  | input f v =>
    intro g m hg
    by_cases hgf : g = f
    · subst hgf
      rw [applyAction, handleInputChange_errors_self] at hg
      by_cases ht : truthy (s.errors.get g) = true
      · simp [ht] at hg
      · simp only [ht] at hg
        rw [if_neg (by simp [ht])] at hg
        exact h g m hg
    · rw [applyAction, handleInputChange_errors_ne _ _ _ _ hgf] at hg
      exact h g m hg
  | submitPost =>
    by_cases hs : s.isSubmitting = true
    · simpa [applyAction, hs] using h
    · intro g m hg
      rw [applyAction, if_neg hs, handleCreatePost_errors,
        validateForm_fst_get] at hg
      by_cases hc : g ∈ [Field.postTitle, Field.postContent] ∧
          trimString (s.formData.get g) = ""
      · rw [if_pos hc] at hg
        exact (Option.some_inj.mp hg).symm
      · rw [if_neg hc] at hg
        exact h g m hg
  | submitComment =>
    by_cases hs : s.isSubmitting = true
    · simpa [applyAction, hs] using h
    · intro g m hg
      rw [applyAction, if_neg hs, handleAddComment_errors,
        validateForm_fst_get] at hg
      by_cases hc : g ∈ [Field.comment] ∧ trimString (s.formData.get g) = ""
      · rw [if_pos hc] at hg
        exact (Option.some_inj.mp hg).symm
      · rw [if_neg hc] at hg
        exact h g m hg
  | complete t =>
    intro g m hg
    rw [applyAction, runCompletion_errors] at hg
    exact h g m hg

theorem run_errorsWF (acts : List Action) : errorsWF (run acts) := by
  have main : ∀ (l : List Action) (s : ComponentState), errorsWF s →
      errorsWF (l.foldl applyAction s) := by
    intro l
    induction l with
    | nil => intro s h; exact h
    | cons a as ih => intro s h; exact ih _ (applyAction_errorsWF s a h)
  refine main acts initialState fun f m hm => ?_
  rw [initialState] at hm
  rw [emptyErrors_get] at hm
  exact absurd hm (by simp)

theorem requiredMessage_ne_empty (f : Field) : requiredMessage f ≠ "" := by
  cases f <;> decide

theorem run_append_singleton (acts : List Action) (a : Action) :
    run (acts ++ [a]) = applyAction (run acts) a := by
  rw [run, run, List.foldl_append, List.foldl_cons, List.foldl_nil]

/-! ### Characterising when an error entry is present -/

theorem append_singleton_split {α : Type} (l : List α) (a : α) (t1 : List α)
    (b : α) (t2 : List α) (h : l ++ [a] = t1 ++ b :: t2) :
    (t1 = l ∧ b = a ∧ t2 = []) ∨
      ∃ t2', t2 = t2' ++ [a] ∧ l = t1 ++ b :: t2' := by
  rcases List.eq_nil_or_concat t2 with h2 | ⟨t2', c, h2⟩
  · subst h2
    have h' := List.append_inj' h rfl
    have hba : b = a := by
      have := h'.2
      simp at this
      exact this.symm
    exact Or.inl ⟨h'.1.symm, hba, rfl⟩
  · subst h2
    have hassoc : t1 ++ b :: (t2' ++ [c]) = (t1 ++ b :: t2') ++ [c] := by simp
    rw [List.concat_eq_append, hassoc] at h
    have h' := List.append_inj' h rfl
    have hca : c = a := by
      have := h'.2
      simp at this
      exact this.symm
    subst hca
    exact Or.inr ⟨t2', by simp, h'.1⟩

theorem errorJustified_append (l : List Action) (a : Action) (f : Field) :
    ErrorJustified (l ++ [a]) f ↔
      (ErrorJustified l f ∧ ¬ editsField a f) ∨
        ValidatedEmptyAt (run l) a f := by
  constructor
  · rintro ⟨t1, b, t2, heq, hve, hnoedit⟩
    rcases append_singleton_split l a t1 b t2 heq with
      ⟨rfl, rfl, rfl⟩ | ⟨t2', rfl, rfl⟩
    · exact Or.inr hve
    · refine Or.inl ⟨⟨t1, b, t2', rfl, hve, fun c hc => hnoedit c ?_⟩,
        hnoedit a ?_⟩
      · simp [hc]
      · simp
  · rintro (⟨⟨t1, b, t2, rfl, hve, hnoedit⟩, hna⟩ | hve)
    · refine ⟨t1, b, t2 ++ [a], by simp, hve, fun c hc => ?_⟩
      rcases List.mem_append.mp hc with hc' | hc'
      · exact hnoedit c hc'
      · have : c = a := by simpa using hc'
        subst this
        exact hna
    · exact ⟨l, a, [], rfl, hve, by simp⟩

/-- An edit of a field always leaves that field without a recorded error,
provided the state's errors are the fixed messages (true of every reachable
state): a truthy error is cleared, an absent one stays absent. -/
theorem handleInputChange_clears (s : ComponentState) (hwf : errorsWF s)
    (f : Field) (v : String) :
    (handleInputChange f v s).errors.get f = none := by
  rw [handleInputChange_errors_self]
  by_cases ht : truthy (s.errors.get f) = true
  · simp [ht]
  · rw [if_neg (by simpa using ht)]
    cases hm : s.errors.get f with
    | none => rfl
    | some m =>
      have hmsg := hwf f m hm
      subst hmsg
      rw [hm] at ht
      have : truthy (some (requiredMessage f)) = true := by
        rw [truthy]
        simp [requiredMessage_ne_empty f]
      exact absurd this ht

theorem errors_isSome_iff_errorJustified (acts : List Action) (f : Field) :
    ((run acts).errors.get f).isSome = true ↔ ErrorJustified acts f := by
  induction acts using List.reverseRecOn with
  | nil =>
    constructor
    · intro h
      rw [run, List.foldl_nil, initialState] at h
      rw [emptyErrors_get] at h
      simp at h
    · rintro ⟨t1, a, t2, heq, -, -⟩
      exact absurd heq (by simp)
  | append_singleton l a ih =>
    rw [run_append_singleton, errorJustified_append]
    cases a with
    | input g v =>
      by_cases hgf : g = f
      · subst hgf
        have hnone : (handleInputChange g v (run l)).errors.get g = none :=
          handleInputChange_clears (run l) (run_errorsWF l) g v
        rw [applyAction, hnone]
        simp [editsField, ValidatedEmptyAt, targetedFields]
      · rw [applyAction,
          handleInputChange_errors_ne g v (run l) f (fun h => hgf h.symm)]
        rw [ih]
        simp [editsField, hgf, ValidatedEmptyAt, targetedFields]
    | submitPost =>
      by_cases hs : (run l).isSubmitting = true
      · rw [applyAction, if_pos hs, ih]
        simp [editsField, ValidatedEmptyAt, hs]
      · have hs' : (run l).isSubmitting = false := by
          cases hb : (run l).isSubmitting
          · rfl
          · exact absurd hb hs
        rw [applyAction, if_neg hs, handleCreatePost_errors,
          validateForm_fst_get]
        by_cases hc : f ∈ [Field.postTitle, Field.postContent] ∧
            trimString ((run l).formData.get f) = ""
        · rw [if_pos hc]
          simp only [Option.isSome_some, true_iff]
          exact Or.inr ⟨by simpa [targetedFields] using hc.1, hs', hc.2⟩
        · rw [if_neg hc, ih]
          constructor
          · intro h
            exact Or.inl ⟨h, by simp [editsField]⟩
          · rintro (⟨h, -⟩ | ⟨hmem, -, hempty⟩)
            · exact h
            · exact absurd ⟨by simpa [targetedFields] using hmem, hempty⟩ hc
    | submitComment =>
      by_cases hs : (run l).isSubmitting = true
      · rw [applyAction, if_pos hs, ih]
        simp [editsField, ValidatedEmptyAt, hs]
      · have hs' : (run l).isSubmitting = false := by
          cases hb : (run l).isSubmitting
          · rfl
          · exact absurd hb hs
        rw [applyAction, if_neg hs, handleAddComment_errors,
          validateForm_fst_get]
        by_cases hc : f ∈ [Field.comment] ∧
            trimString ((run l).formData.get f) = ""
        · rw [if_pos hc]
          simp only [Option.isSome_some, true_iff]
          exact Or.inr ⟨by simpa [targetedFields] using hc.1, hs', hc.2⟩
        · rw [if_neg hc, ih]
          constructor
          · intro h
            exact Or.inl ⟨h, by simp [editsField]⟩
          · rintro (⟨h, -⟩ | ⟨hmem, -, hempty⟩)
            · exact h
            · exact absurd ⟨by simpa [targetedFields] using hmem, hempty⟩ hc
    | complete t =>
      rw [applyAction, runCompletion_errors, ih]
      simp [editsField, ValidatedEmptyAt, targetedFields]

theorem reachable_errorsWF (s : ComponentState) (hreach : Reachable s) :
    errorsWF s := by
  rcases hreach with ⟨acts, rfl⟩
  exact run_errorsWF acts

theorem reachable_pending_empty (s : ComponentState) (hreach : Reachable s)
    (hidle : s.isSubmitting = false) : s.pending = [] := by
  rcases hreach with ⟨acts, rfl⟩
  have h := run_flagInv acts
  rw [flagInv, hidle] at h
  simp at h
  exact h

/-! ### The claims -/

/-- Claim C1: in every reachable state at most one delayed completion is
pending, and while `isSubmitting` is true a submit intent at either sub-form
is rejected at the system boundary (the disabled buttons make the click a
no-op), so it never schedules a second concurrent delayed completion. -/
theorem claim_C1 (acts : List Action) :
    (run acts).pending.length ≤ 1 ∧
      ((run acts).isSubmitting = true →
        applyAction (run acts) Action.submitPost = run acts ∧
        applyAction (run acts) Action.submitComment = run acts) := by
  have h := run_flagInv acts
  rw [flagInv] at h
  constructor
  · rw [h]
    by_cases hs : (run acts).isSubmitting = true <;> simp [hs]
  · intro hs
    exact ⟨by rw [applyAction, if_pos hs], by rw [applyAction, if_pos hs]⟩

theorem claim_C1_witness :
    (run [Action.input Field.postTitle "Hello",
          Action.input Field.postContent "World",
          Action.submitPost]).isSubmitting = true ∧
    (run [Action.input Field.postTitle "Hello",
          Action.input Field.postContent "World",
          Action.submitPost]).pending.length ≤ 1 ∧
    applyAction
        (run [Action.input Field.postTitle "Hello",
              Action.input Field.postContent "World",
              Action.submitPost]) Action.submitPost =
      run [Action.input Field.postTitle "Hello",
           Action.input Field.postContent "World",
           Action.submitPost] :=
  ⟨by decide,
   (claim_C1 [Action.input Field.postTitle "Hello",
              Action.input Field.postContent "World",
              Action.submitPost]).1,
   ((claim_C1 [Action.input Field.postTitle "Hello",
               Action.input Field.postContent "World",
               Action.submitPost]).2 (by decide)).1⟩

/-- Claim C2: from a reachable idle state whose `postTitle` and `postContent`
trim to non-empty values, `handleCreatePost` sets `isSubmitting`, and after
the delayed completion fires exactly one `createPost` event with that title,
that content and a timestamp has been emitted, both post fields are reset,
the comment field is unchanged, and `isSubmitting` is false again. -/
theorem claim_C2 (s : ComponentState) (t : Nat) (hreach : Reachable s)
    (hidle : s.isSubmitting = false)
    (h1 : trimString s.formData.postTitle ≠ "")
    (h2 : trimString s.formData.postContent ≠ "") :
    (handleCreatePost s).isSubmitting = true ∧
    (runCompletion (handleCreatePost s) t).emitted =
      s.emitted ++
        [Event.createPost s.formData.postTitle s.formData.postContent t] ∧
    (runCompletion (handleCreatePost s) t).formData.postTitle = "" ∧
    (runCompletion (handleCreatePost s) t).formData.postContent = "" ∧
    (runCompletion (handleCreatePost s) t).formData.comment =
      s.formData.comment ∧
    (runCompletion (handleCreatePost s) t).isSubmitting = false ∧
    (runCompletion (handleCreatePost s) t).pending = [] := by
  have hpend : s.pending = [] := reachable_pending_empty s hreach hidle
  have hok : (validateForm s.formData s.errors
      [Field.postTitle, Field.postContent]).2 = true := by
    rw [validateForm_snd]
    intro f hf
    rcases List.mem_cons.mp hf with rfl | hf'
    · exact h1
    · rcases List.mem_cons.mp hf' with rfl | hf''
      · exact h2
      · exact absurd hf'' (by simp)
  have hcp : handleCreatePost s =
      { s with
        errors := (validateForm s.formData s.errors
          [Field.postTitle, Field.postContent]).1,
        isSubmitting := true,
        pending := s.pending ++
          [Pending.createPost s.formData.postTitle s.formData.postContent] } := by
    rw [handleCreatePost]
    simp [hok]
  rw [hcp, hpend]
  simp only [List.nil_append]
  rw [runCompletion]
  simp

theorem claim_C2_witness :
    ((run [Action.input Field.postTitle "Hello",
           Action.input Field.postContent "World"]).isSubmitting = false ∧
     trimString (run [Action.input Field.postTitle "Hello",
           Action.input Field.postContent "World"]).formData.postTitle ≠ "" ∧
     trimString (run [Action.input Field.postTitle "Hello",
           Action.input Field.postContent "World"]).formData.postContent ≠ "") ∧
    ((handleCreatePost (run [Action.input Field.postTitle "Hello",
        Action.input Field.postContent "World"])).isSubmitting = true ∧
     (runCompletion (handleCreatePost (run [Action.input Field.postTitle "Hello",
        Action.input Field.postContent "World"])) 42).emitted =
       (run [Action.input Field.postTitle "Hello",
             Action.input Field.postContent "World"]).emitted ++
         [Event.createPost
           (run [Action.input Field.postTitle "Hello",
                 Action.input Field.postContent "World"]).formData.postTitle
           (run [Action.input Field.postTitle "Hello",
                 Action.input Field.postContent "World"]).formData.postContent
           42] ∧
     (runCompletion (handleCreatePost (run [Action.input Field.postTitle "Hello",
        Action.input Field.postContent "World"])) 42).formData.postTitle = "" ∧
     (runCompletion (handleCreatePost (run [Action.input Field.postTitle "Hello",
        Action.input Field.postContent "World"])) 42).formData.postContent = "" ∧
     (runCompletion (handleCreatePost (run [Action.input Field.postTitle "Hello",
        Action.input Field.postContent "World"])) 42).formData.comment =
       (run [Action.input Field.postTitle "Hello",
             Action.input Field.postContent "World"]).formData.comment ∧
     (runCompletion (handleCreatePost (run [Action.input Field.postTitle "Hello",
        Action.input Field.postContent "World"])) 42).isSubmitting = false ∧
     (runCompletion (handleCreatePost (run [Action.input Field.postTitle "Hello",
        Action.input Field.postContent "World"])) 42).pending = []) :=
  ⟨⟨by decide, by decide, by decide⟩,
   claim_C2
     (run [Action.input Field.postTitle "Hello",
           Action.input Field.postContent "World"]) 42
     ⟨[Action.input Field.postTitle "Hello",
       Action.input Field.postContent "World"], rfl⟩
     (by decide) (by decide) (by decide)⟩

/-- Claim C3: from a reachable idle state whose comment trims to a non-empty
value, `handleAddComment` sets `isSubmitting`, and after the delayed
completion fires exactly one `addComment` event with that text and a
timestamp has been emitted, the comment is reset, `postTitle` and
`postContent` are unchanged, and `isSubmitting` is false again. -/
theorem claim_C3 (s : ComponentState) (t : Nat) (hreach : Reachable s)
    (hidle : s.isSubmitting = false)
    (h1 : trimString s.formData.comment ≠ "") :
    (handleAddComment s).isSubmitting = true ∧
    (runCompletion (handleAddComment s) t).emitted =
      s.emitted ++ [Event.addComment s.formData.comment t] ∧
    (runCompletion (handleAddComment s) t).formData.comment = "" ∧
    (runCompletion (handleAddComment s) t).formData.postTitle =
      s.formData.postTitle ∧
    (runCompletion (handleAddComment s) t).formData.postContent =
      s.formData.postContent ∧
    (runCompletion (handleAddComment s) t).isSubmitting = false ∧
    (runCompletion (handleAddComment s) t).pending = [] := by
  have hpend : s.pending = [] := reachable_pending_empty s hreach hidle
  have hok : (validateForm s.formData s.errors [Field.comment]).2 = true := by
    rw [validateForm_snd]
    intro f hf
    rcases List.mem_cons.mp hf with rfl | hf'
    · exact h1
    · exact absurd hf' (by simp)
  have hcp : handleAddComment s =
      { s with
        errors := (validateForm s.formData s.errors [Field.comment]).1,
        isSubmitting := true,
        pending := s.pending ++ [Pending.addComment s.formData.comment] } := by
    rw [handleAddComment]
    simp [hok]
  rw [hcp, hpend]
  simp only [List.nil_append]
  rw [runCompletion]
  simp

theorem claim_C3_witness :
    ((run [Action.input Field.comment "Nice post!"]).isSubmitting = false ∧
     trimString (run [Action.input Field.comment
        "Nice post!"]).formData.comment ≠ "") ∧
    ((handleAddComment (run [Action.input Field.comment
        "Nice post!"])).isSubmitting = true ∧
     (runCompletion (handleAddComment (run [Action.input Field.comment
        "Nice post!"])) 7).emitted =
       (run [Action.input Field.comment "Nice post!"]).emitted ++
         [Event.addComment
           (run [Action.input Field.comment "Nice post!"]).formData.comment 7] ∧
     (runCompletion (handleAddComment (run [Action.input Field.comment
        "Nice post!"])) 7).formData.comment = "" ∧
     (runCompletion (handleAddComment (run [Action.input Field.comment
        "Nice post!"])) 7).formData.postTitle =
       (run [Action.input Field.comment "Nice post!"]).formData.postTitle ∧
     (runCompletion (handleAddComment (run [Action.input Field.comment
        "Nice post!"])) 7).formData.postContent =
       (run [Action.input Field.comment "Nice post!"]).formData.postContent ∧
     (runCompletion (handleAddComment (run [Action.input Field.comment
        "Nice post!"])) 7).isSubmitting = false ∧
     (runCompletion (handleAddComment (run [Action.input Field.comment
        "Nice post!"])) 7).pending = []) :=
  ⟨⟨by decide, by decide⟩,
   claim_C3 (run [Action.input Field.comment "Nice post!"]) 7
     ⟨[Action.input Field.comment "Nice post!"], rfl⟩ (by decide) (by decide)⟩

/-- Claim C4: submitting a sub-form with an empty or whitespace-only required
field records exactly that field's fixed required-message, returns without
touching `isSubmitting`, emits no event, and schedules no delayed
completion. -/
theorem claim_C4 (s : ComponentState) :
    ((trimString s.formData.postTitle = "" ∨
        trimString s.formData.postContent = "") →
      (handleCreatePost s).isSubmitting = s.isSubmitting ∧
      (handleCreatePost s).pending = s.pending ∧
      (handleCreatePost s).emitted = s.emitted ∧
      (handleCreatePost s).formData = s.formData ∧
      (trimString s.formData.postTitle = "" →
        (handleCreatePost s).errors.get Field.postTitle =
          some "Post title is required") ∧
      (trimString s.formData.postContent = "" →
        (handleCreatePost s).errors.get Field.postContent =
          some "Post content is required")) ∧
    (trimString s.formData.comment = "" →
      (handleAddComment s).isSubmitting = s.isSubmitting ∧
      (handleAddComment s).pending = s.pending ∧
      (handleAddComment s).emitted = s.emitted ∧
      (handleAddComment s).formData = s.formData ∧
      (handleAddComment s).errors.get Field.comment =
        some "Comment is required") := by
  constructor
  · intro hempty
    have hfail : ¬ ((validateForm s.formData s.errors
        [Field.postTitle, Field.postContent]).2 = true) := by
      rw [validateForm_snd]
      intro hall
      rcases hempty with he | he
      · exact hall Field.postTitle (by simp) he
      · exact hall Field.postContent (by simp) he
    have hfalse : (validateForm s.formData s.errors
        [Field.postTitle, Field.postContent]).2 = false := by
      rcases hb : (validateForm s.formData s.errors
          [Field.postTitle, Field.postContent]).2
      · rfl
      · exact absurd hb hfail
    have hcp : handleCreatePost s =
        { s with errors := (validateForm s.formData s.errors
            [Field.postTitle, Field.postContent]).1 } := by
      rw [handleCreatePost]
      simp [hfalse]
    rw [hcp]
    refine ⟨rfl, rfl, rfl, rfl, fun he => ?_, fun he => ?_⟩
    · rw [validateForm_fst_get, if_pos ⟨by simp, he⟩]
      rfl
    · rw [validateForm_fst_get, if_pos ⟨by simp, he⟩]
      rfl
  · intro hempty
    have hfail : ¬ ((validateForm s.formData s.errors [Field.comment]).2 =
        true) := by
      rw [validateForm_snd]
      intro hall
      exact hall Field.comment (by simp) hempty
    have hfalse : (validateForm s.formData s.errors [Field.comment]).2 =
        false := by
      rcases hb : (validateForm s.formData s.errors [Field.comment]).2
      · rfl
      · exact absurd hb hfail
    have hcp : handleAddComment s =
        { s with errors :=
            (validateForm s.formData s.errors [Field.comment]).1 } := by
      rw [handleAddComment]
      simp [hfalse]
    rw [hcp]
    refine ⟨rfl, rfl, rfl, rfl, ?_⟩
    rw [validateForm_fst_get, if_pos ⟨by simp, hempty⟩]
    rfl

theorem claim_C4_witness :
    (trimString initialState.formData.postTitle = "" ∧
     (handleCreatePost initialState).isSubmitting =
       initialState.isSubmitting ∧
     (handleCreatePost initialState).pending = initialState.pending ∧
     (handleCreatePost initialState).errors.get Field.postTitle =
       some "Post title is required") ∧
    (trimString initialState.formData.comment = "" ∧
     (handleAddComment initialState).errors.get Field.comment =
       some "Comment is required") :=
  ⟨⟨by decide,
    ((claim_C4 initialState).1 (Or.inl (by decide))).1,
    ((claim_C4 initialState).1 (Or.inl (by decide))).2.1,
    ((claim_C4 initialState).1 (Or.inl (by decide))).2.2.2.2.1 (by decide)⟩,
   ⟨by decide, ((claim_C4 initialState).2 (by decide)).2.2.2.2⟩⟩

/-- Claim C5 (as stated) is false on the code: after a failed post submission
the `postTitle` error is present, and editing the field to the whitespace-only
value `" "` — which does NOT make it non-empty after trimming — still clears
the error, contradicting "an error is cleared exactly when the corresponding
field becomes non-empty after an edit". -/
theorem claim_C5_counterexample :
    (run [Action.submitPost]).errors.get Field.postTitle =
      some "Post title is required" ∧
    trimString " " = "" ∧
    (run [Action.submitPost, Action.input Field.postTitle " "]).errors.get
      Field.postTitle = none :=
  ⟨by decide, by decide, by decide⟩

/-- Claim C5 (amended): in every reachable state an error entry for a field is
present iff a validation pass targeting the field found it empty after
trimming more recently than the field's last edit; and an edit of a field —
with any new value, empty or not — always leaves that field without a
recorded error. -/
theorem claim_C5_amended (acts : List Action) (f : Field) :
    (((run acts).errors.get f).isSome = true ↔ ErrorJustified acts f) ∧
    ∀ v, (handleInputChange f v (run acts)).errors.get f = none :=
  ⟨errors_isSome_iff_errorJustified acts f,
   fun v => handleInputChange_clears (run acts) (run_errorsWF acts) f v⟩

theorem claim_C5_amended_witness :
    (((run [Action.submitPost]).errors.get Field.postTitle).isSome = true ↔
      ErrorJustified [Action.submitPost] Field.postTitle) ∧
    (handleInputChange Field.postTitle " "
        (run [Action.submitPost])).errors.get Field.postTitle = none :=
  ⟨(claim_C5_amended [Action.submitPost] Field.postTitle).1,
   (claim_C5_amended [Action.submitPost] Field.postTitle).2 " "⟩

/-- Claim C6: `validateForm` returns `true` iff every targeted field trims to
a non-empty value. -/
theorem claim_C6 (fd : FormData) (prev : FormErrors) (fields : List Field) :
    (validateForm fd prev fields).2 = true ↔
      ∀ f ∈ fields, trimString (fd.get f) ≠ "" :=
  validateForm_snd fd prev fields

theorem claim_C6_witness :
    (validateForm ⟨"a", "", ""⟩ emptyErrors [Field.postTitle]).2 = true ↔
      ∀ f ∈ [Field.postTitle],
        trimString (FormData.get ⟨"a", "", ""⟩ f) ≠ "" :=
  claim_C6 ⟨"a", "", ""⟩ emptyErrors [Field.postTitle]

/-- Claim C7: on reachable states, `validateForm` merges new errors into the
existing mapping without removing or altering any existing entry; in
particular validating only `{comment}` leaves the `postTitle` and
`postContent` entries exactly as they were. -/
theorem claim_C7 (s : ComponentState) (hreach : Reachable s)
    (fields : List Field) (f : Field) (m : String)
    (h : s.errors.get f = some m) :
    ((validateForm s.formData s.errors fields).1).get f = some m ∧
    ((validateForm s.formData s.errors [Field.comment]).1).get
      Field.postTitle = s.errors.get Field.postTitle ∧
    ((validateForm s.formData s.errors [Field.comment]).1).get
      Field.postContent = s.errors.get Field.postContent := by
  have hwf := reachable_errorsWF s hreach
  refine ⟨?_, ?_, ?_⟩
  · rw [validateForm_fst_get]
    by_cases hc : f ∈ fields ∧ trimString (s.formData.get f) = ""
    · rw [if_pos hc, hwf f m h]
    · rw [if_neg hc]
      exact h
  · rw [validateForm_fst_get, if_neg]
    rintro ⟨hmem, -⟩
    simp at hmem
  · rw [validateForm_fst_get, if_neg]
    rintro ⟨hmem, -⟩
    simp at hmem

theorem claim_C7_witness :
    (run [Action.submitPost]).errors.get Field.postTitle =
      some "Post title is required" ∧
    (((validateForm (run [Action.submitPost]).formData
        (run [Action.submitPost]).errors [Field.comment]).1).get
        Field.postTitle = some "Post title is required" ∧
     ((validateForm (run [Action.submitPost]).formData
        (run [Action.submitPost]).errors [Field.comment]).1).get
        Field.postTitle = (run [Action.submitPost]).errors.get
        Field.postTitle ∧
     ((validateForm (run [Action.submitPost]).formData
        (run [Action.submitPost]).errors [Field.comment]).1).get
        Field.postContent = (run [Action.submitPost]).errors.get
        Field.postContent) :=
  ⟨by decide,
   claim_C7 (run [Action.submitPost]) ⟨[Action.submitPost], rfl⟩
     [Field.comment] Field.postTitle "Post title is required" (by decide)⟩

/-- Claim C8: in a reachable state, editing a field that carries a recorded
error clears that field's error entry immediately, whatever the new value. -/
theorem claim_C8 (s : ComponentState) (hreach : Reachable s) (f : Field)
    (v : String) (m : String) (h : s.errors.get f = some m) :
    (handleInputChange f v s).errors.get f = none :=
  handleInputChange_clears s (reachable_errorsWF s hreach) f v

theorem claim_C8_witness :
    (run [Action.submitPost]).errors.get Field.postTitle =
      some "Post title is required" ∧
    (handleInputChange Field.postTitle " "
        (run [Action.submitPost])).errors.get Field.postTitle = none :=
  ⟨by decide,
   claim_C8 (run [Action.submitPost]) ⟨[Action.submitPost], rfl⟩
     Field.postTitle " " "Post title is required" (by decide)⟩

/-- Claim C9: `handleInputChange` overwrites only the edited field's value
and at most clears that field's error; `isSubmitting`, the pending queue,
the event trace, every other field's value and every other field's error are
unchanged. -/
theorem claim_C9 (s : ComponentState) (f : Field) (v : String) :
    (handleInputChange f v s).formData.get f = v ∧
    (handleInputChange f v s).isSubmitting = s.isSubmitting ∧
    (handleInputChange f v s).pending = s.pending ∧
    (handleInputChange f v s).emitted = s.emitted ∧
    (∀ g, g ≠ f →
      (handleInputChange f v s).formData.get g = s.formData.get g ∧
      (handleInputChange f v s).errors.get g = s.errors.get g) ∧
    ((handleInputChange f v s).errors.get f = s.errors.get f ∨
      (handleInputChange f v s).errors.get f = none) := by
  refine ⟨?_, handleInputChange_isSubmitting f v s,
    handleInputChange_pending f v s, handleInputChange_emitted f v s,
    fun g hg => ⟨?_, handleInputChange_errors_ne f v s g hg⟩, ?_⟩
  · rw [handleInputChange_formData, formData_get_set_self]
  · rw [handleInputChange_formData, formData_get_set_ne _ _ _ _ (Ne.symm hg)]
  · rw [handleInputChange_errors_self]
    by_cases ht : truthy (s.errors.get f) = true
    · right
      simp [ht]
    · left
      simp [ht]

theorem claim_C9_witness :
    (handleInputChange Field.comment "hi" initialState).formData.get
      Field.comment = "hi" ∧
    (handleInputChange Field.comment "hi" initialState).isSubmitting =
      initialState.isSubmitting ∧
    (handleInputChange Field.comment "hi" initialState).formData.get
      Field.postTitle = initialState.formData.get Field.postTitle ∧
    (handleInputChange Field.comment "hi" initialState).errors.get
      Field.postTitle = initialState.errors.get Field.postTitle :=
  ⟨(claim_C9 initialState Field.comment "hi").1,
   (claim_C9 initialState Field.comment "hi").2.1,
   ((claim_C9 initialState Field.comment "hi").2.2.2.2.1 Field.postTitle
     (by decide)).1,
   ((claim_C9 initialState Field.comment "hi").2.2.2.2.1 Field.postTitle
     (by decide)).2⟩

/-- Claim C10: the boolean result of `validateForm` depends only on the form
values of the targeted fields, never on the existing error mapping; and it
can return `true` while a targeted field still carries a previously recorded
stale error, which the merge keeps. -/
theorem claim_C10 (fd : FormData) (prev prev' : FormErrors)
    (fields : List Field) :
    (validateForm fd prev fields).2 = (validateForm fd prev' fields).2 ∧
    ((validateForm ⟨"", "", "x"⟩ ⟨none, none, some "Comment is required"⟩
        [Field.comment]).2 = true ∧
     (validateForm ⟨"", "", "x"⟩ ⟨none, none, some "Comment is required"⟩
        [Field.comment]).1.comment = some "Comment is required") :=
  ⟨rfl, by decide, by decide⟩

end PostCommentForm
